import Mathlib

/-!
Shallow embedding of the qrcodegen repository (src/qrcodegen.js together with
the companion variant in src/unnamed/part_000) and verification of the frozen
claims about it.

Conventions of the embedding:
* JavaScript numbers are modelled as `Nat` (all quantities in the encoder are
  small non-negative integers); the single signed/rounded computation
  (penalty rule 4) is modelled exactly over `Int` with floor division,
  mirroring `Math.round(x) = ⌊x + 1/2⌋`.
* A matrix cell (`this.modules[r][c]`) holds `null`, a boolean, or a
  `{dark}` object; these become `Module.unset`, `Module.val b`,
  `Module.reserved b`.
* Matrices are lists of rows; out-of-range reads yield `Module.unset`
  (JavaScript `undefined` is never actually read in the modelled paths),
  and out-of-range writes are no-ops (never hit in the modelled paths).
* Fallible code (`throw new Error`) is modelled with `Except String` or
  `Option`.
-/

namespace QRGen

/-- Cell state of the matrix: `null` / boolean / `{dark}` object in the JS. -/
inductive Module where
  | unset : Module
  | val : Bool → Module
  | reserved : Bool → Module
deriving DecidableEq, Repr

/-- A QR matrix: list of rows of cells (`this.modules`). -/
abbrev Mat := List (List Module)

/-- Read `this.modules[r][c]`; out of range gives `unset`. -/
def getM (mat : Mat) (r c : Nat) : Module :=
  (mat.getD r []).getD c Module.unset

/-- Write `this.modules[r][c] = v` (no-op out of range, as in `List.set`). -/
def setM (mat : Mat) (r c : Nat) (v : Module) : Mat :=
  mat.set r ((mat.getD r []).set c v)

/-- The matrix is an `n × n` grid. -/
def IsSize (n : Nat) (mat : Mat) : Prop :=
  mat.length = n ∧ ∀ r < n, (mat.getD r []).length = n

/-- Fresh all-`unset` matrix of the given side (the `QRMatrix` constructor). -/
def emptyMatrix (n : Nat) : Mat :=
  List.replicate n (List.replicate n Module.unset)

/-- Write the same value at every position of the list, in order. -/
def writeAll (mat : Mat) (ps : List (Nat × Nat)) (v : Module) : Mat :=
  ps.foldl (fun m p => setM m p.1 p.2 v) mat

end QRGen

namespace QRGen

/-! ### Basic matrix lemmas -/

theorem getM_setM_ne {mat : Mat} {r c r' c' : Nat} (h : ¬(r' = r ∧ c' = c)) (v : Module) :
    getM (setM mat r c v) r' c' = getM mat r' c' := by
  unfold getM setM
  rcases Decidable.em (r' = r) with hr | hr
  · subst hr
    have hc : c ≠ c' := fun hc => h ⟨rfl, hc.symm⟩
    rcases Decidable.em (r' < mat.length) with hlt | hlt
    · simp only [List.getD_eq_getElem?_getD, List.getElem?_set_self hlt]
      simp [List.getElem?_set_ne hc]
    · have : mat.set r' ((mat.getD r' []).set c v) = mat := by
        apply List.set_eq_of_length_le; omega
      rw [this]
  · have hrr : r ≠ r' := fun hh => hr hh.symm
    simp only [List.getD_eq_getElem?_getD, List.getElem?_set_ne hrr]

theorem getM_setM_self {mat : Mat} {r c : Nat} (hr : r < mat.length)
    (hc : c < (mat.getD r []).length) (v : Module) :
    getM (setM mat r c v) r c = v := by
  unfold getM setM
  simp only [List.getD_eq_getElem?_getD] at hc ⊢
  simp only [List.getElem?_set_self hr, Option.getD_some]
  simp [List.getElem?_set_self hc]

theorem isSize_setM {n : Nat} {mat : Mat} (h : IsSize n mat) (r c : Nat) (v : Module) :
    IsSize n (setM mat r c v) := by
  obtain ⟨hlen, hrow⟩ := h
  refine ⟨by simp [setM, hlen], ?_⟩
  intro i hi
  unfold setM
  have hrw := hrow i hi
  simp only [List.getD_eq_getElem?_getD] at hrw ⊢
  rcases Decidable.em (i = r) with hir | hir
  · subst hir
    rcases Decidable.em (i < mat.length) with hlt | hlt
    · simp only [List.getElem?_set_self hlt, Option.getD_some]
      rw [List.length_set]
      exact hrw
    · rw [List.set_eq_of_length_le (by omega)]
      exact hrw
  · have : r ≠ i := fun hh => hir hh.symm
    simp only [List.getElem?_set_ne this]
    exact hrw

theorem isSize_emptyMatrix (n : Nat) : IsSize n (emptyMatrix n) := by
  refine ⟨by simp [emptyMatrix], ?_⟩
  intro r hr
  simp [emptyMatrix, List.getD_eq_getElem?_getD, List.getElem?_replicate_of_lt hr]

theorem isSize_foldl {n : Nat} {β : Type} (step : Mat → β → Mat)
    (hstep : ∀ m x, IsSize n m → IsSize n (step m x)) :
    ∀ (l : List β) (mat : Mat), IsSize n mat → IsSize n (l.foldl step mat) := by
  intro l
  induction l with
  | nil => intro mat h; exact h
  | cons x xs ih => intro mat h; exact ih _ (hstep _ _ h)

theorem isSize_writeAll {n : Nat} {mat : Mat} (h : IsSize n mat)
    (ps : List (Nat × Nat)) (v : Module) : IsSize n (writeAll mat ps v) :=
  isSize_foldl _ (fun _ p hm => isSize_setM hm p.1 p.2 v) ps mat h

theorem getM_writeAll {n : Nat} (ps : List (Nat × Nat)) (v : Module) :
    ∀ (mat : Mat), IsSize n mat → ∀ r c, r < n → c < n →
      getM (writeAll mat ps v) r c = if (r, c) ∈ ps then v else getM mat r c := by
  induction ps with
  | nil => intro mat _ r c _ _; simp [writeAll]
  | cons p rest ih =>
    intro mat hsz r c hr hc
    have hstep : writeAll mat (p :: rest) v = writeAll (setM mat p.1 p.2 v) rest v := rfl
    rw [hstep, ih _ (isSize_setM hsz p.1 p.2 v) r c hr hc]
    rcases Decidable.em ((r, c) ∈ rest) with hm | hm
    · simp [hm]
    · rcases Decidable.em ((r, c) = p) with hp | hp
      · have h1 : p.1 = r := (congrArg Prod.fst hp).symm
        have h2 : p.2 = c := (congrArg Prod.snd hp).symm
        rw [h1, h2, getM_setM_self (by rw [hsz.1]; omega) (by rw [hsz.2 r hr]; omega) v]
        simp [hm, hp]
      · have hne : ¬(r = p.1 ∧ c = p.2) := by
          intro ⟨h1, h2⟩
          exact hp (by cases p; simp_all)
        rw [getM_setM_ne hne v]
        simp [hm, hp, List.mem_cons]

end QRGen

namespace QRGen

/-! ### GF(256) arithmetic (class `Galois` of src/qrcodegen.js) -/

/-- One step of the exponent-table recurrence: `x <<= 1; if (x & 0x100) x ^= 0x11d`. -/
def gfStep (x : Nat) : Nat :=
  let y := x <<< 1
  if y &&& 0x100 ≠ 0 then y ^^^ 0x11d else y

/-- Embeds `Galois._init`: builds the 512-entry exponent table and 256-entry log table.
First loop fills `exp[0..254]` and `log[exp[i]] = i`; second loop copies
`exp[i] = exp[i-255]` for `i ∈ [255, 512)`; finally `log[0] = 0`. -/
def gfTables : List Nat × List Nat :=
  let start : List Nat × List Nat × Nat := (List.replicate 512 0, List.replicate 256 0, 1)
  let built := (List.range 255).foldl
    (fun acc i =>
      let e := acc.1
      let l := acc.2.1
      let x := acc.2.2
      (e.set i x, l.set x i, gfStep x)) start
  let e2 := (List.range 257).foldl
    (fun e k => e.set (k + 255) (e.getD (k + 255 - 255) 0)) built.1
  (e2, built.2.1.set 0 0)

/-- Literal contents of the 512-entry GF(256) exponent table built by
`Galois._init` (anchored to the source construction by `gfTables_eq`). -/
def expTable : List Nat :=
  [1, 2, 4, 8, 16, 32, 64, 128, 29, 58, 116, 232, 205, 135, 19, 38, 76, 152, 45, 90, 180, 117, 234, 201,
   143, 3, 6, 12, 24, 48, 96, 192, 157, 39, 78, 156, 37, 74, 148, 53, 106, 212, 181, 119, 238, 193, 159, 35,
   70, 140, 5, 10, 20, 40, 80, 160, 93, 186, 105, 210, 185, 111, 222, 161, 95, 190, 97, 194, 153, 47, 94, 188,
   101, 202, 137, 15, 30, 60, 120, 240, 253, 231, 211, 187, 107, 214, 177, 127, 254, 225, 223, 163, 91, 182, 113, 226,
   217, 175, 67, 134, 17, 34, 68, 136, 13, 26, 52, 104, 208, 189, 103, 206, 129, 31, 62, 124, 248, 237, 199, 147,
   59, 118, 236, 197, 151, 51, 102, 204, 133, 23, 46, 92, 184, 109, 218, 169, 79, 158, 33, 66, 132, 21, 42, 84,
   168, 77, 154, 41, 82, 164, 85, 170, 73, 146, 57, 114, 228, 213, 183, 115, 230, 209, 191, 99, 198, 145, 63, 126,
   252, 229, 215, 179, 123, 246, 241, 255, 227, 219, 171, 75, 150, 49, 98, 196, 149, 55, 110, 220, 165, 87, 174, 65,
   130, 25, 50, 100, 200, 141, 7, 14, 28, 56, 112, 224, 221, 167, 83, 166, 81, 162, 89, 178, 121, 242, 249, 239,
   195, 155, 43, 86, 172, 69, 138, 9, 18, 36, 72, 144, 61, 122, 244, 245, 247, 243, 251, 235, 203, 139, 11, 22,
   44, 88, 176, 125, 250, 233, 207, 131, 27, 54, 108, 216, 173, 71, 142, 1, 2, 4, 8, 16, 32, 64, 128, 29,
   58, 116, 232, 205, 135, 19, 38, 76, 152, 45, 90, 180, 117, 234, 201, 143, 3, 6, 12, 24, 48, 96, 192, 157,
   39, 78, 156, 37, 74, 148, 53, 106, 212, 181, 119, 238, 193, 159, 35, 70, 140, 5, 10, 20, 40, 80, 160, 93,
   186, 105, 210, 185, 111, 222, 161, 95, 190, 97, 194, 153, 47, 94, 188, 101, 202, 137, 15, 30, 60, 120, 240, 253,
   231, 211, 187, 107, 214, 177, 127, 254, 225, 223, 163, 91, 182, 113, 226, 217, 175, 67, 134, 17, 34, 68, 136, 13,
   26, 52, 104, 208, 189, 103, 206, 129, 31, 62, 124, 248, 237, 199, 147, 59, 118, 236, 197, 151, 51, 102, 204, 133,
   23, 46, 92, 184, 109, 218, 169, 79, 158, 33, 66, 132, 21, 42, 84, 168, 77, 154, 41, 82, 164, 85, 170, 73,
   146, 57, 114, 228, 213, 183, 115, 230, 209, 191, 99, 198, 145, 63, 126, 252, 229, 215, 179, 123, 246, 241, 255, 227,
   219, 171, 75, 150, 49, 98, 196, 149, 55, 110, 220, 165, 87, 174, 65, 130, 25, 50, 100, 200, 141, 7, 14, 28,
   56, 112, 224, 221, 167, 83, 166, 81, 162, 89, 178, 121, 242, 249, 239, 195, 155, 43, 86, 172, 69, 138, 9, 18,
   36, 72, 144, 61, 122, 244, 245, 247, 243, 251, 235, 203, 139, 11, 22, 44, 88, 176, 125, 250, 233, 207, 131, 27,
   54, 108, 216, 173, 71, 142, 1, 2]

/-- Literal contents of the 256-entry GF(256) log table built by
`Galois._init` (anchored to the source construction by `gfTables_eq`). -/
def logTable : List Nat :=
  [0, 0, 1, 25, 2, 50, 26, 198, 3, 223, 51, 238, 27, 104, 199, 75, 4, 100, 224, 14, 52, 141, 239, 129,
   28, 193, 105, 248, 200, 8, 76, 113, 5, 138, 101, 47, 225, 36, 15, 33, 53, 147, 142, 218, 240, 18, 130, 69,
   29, 181, 194, 125, 106, 39, 249, 185, 201, 154, 9, 120, 77, 228, 114, 166, 6, 191, 139, 98, 102, 221, 48, 253,
   226, 152, 37, 179, 16, 145, 34, 136, 54, 208, 148, 206, 143, 150, 219, 189, 241, 210, 19, 92, 131, 56, 70, 64,
   30, 66, 182, 163, 195, 72, 126, 110, 107, 58, 40, 84, 250, 133, 186, 61, 202, 94, 155, 159, 10, 21, 121, 43,
   78, 212, 229, 172, 115, 243, 167, 87, 7, 112, 192, 247, 140, 128, 99, 13, 103, 74, 222, 237, 49, 197, 254, 24,
   227, 165, 153, 119, 38, 184, 180, 124, 17, 68, 146, 217, 35, 32, 137, 46, 55, 63, 209, 91, 149, 188, 207, 205,
   144, 135, 151, 178, 220, 252, 190, 97, 242, 86, 211, 171, 20, 42, 93, 158, 132, 60, 57, 83, 71, 109, 65, 162,
   31, 45, 67, 216, 183, 123, 164, 118, 196, 23, 73, 236, 127, 12, 111, 246, 108, 161, 59, 82, 41, 157, 85, 170,
   251, 96, 134, 177, 187, 204, 62, 90, 203, 89, 95, 176, 156, 169, 160, 81, 11, 245, 22, 235, 122, 117, 44, 215,
   79, 174, 213, 233, 230, 231, 173, 232, 116, 214, 244, 234, 168, 80, 88, 175]

set_option maxRecDepth 100000 in
/-- The literal tables are exactly what the source constructor builds. -/
theorem gfTables_eq : gfTables = (expTable, logTable) := by decide

/-- Embeds `Galois.mul(a, b)` via the tables. -/
def gmul (a b : Nat) : Nat :=
  if a = 0 ∨ b = 0 then 0
  else expTable.getD ((logTable.getD a 0 + logTable.getD b 0) % 255) 0

/-- Embeds `Galois.polyMul(a, b)`: GF(256) polynomial product, result length
`a.length + b.length - 1`; `res[k] = XOR of mul(a[i], b[k-i])`, which is the
source nested loop `res[i+j] ^= mul(a[i], b[j])` re-indexed per output cell. -/
def polyMul (a b : List Nat) : List Nat :=
  (List.range (a.length + b.length - 1)).map fun k =>
    (List.range a.length).foldl
      (fun acc i =>
        if i ≤ k ∧ k - i < b.length then acc ^^^ gmul (a.getD i 0) (b.getD (k - i) 0)
        else acc) 0

/-- One elimination step of `Galois.polyDiv`: read `coef = msg[i]`; if non-zero,
XOR `mul(divisor[j], coef)` into `msg[i+j]` for every `j`. -/
def polyDivStep (divisor : List Nat) (msg : List Nat) (i : Nat) : List Nat :=
  let coef := msg.getD i 0
  if coef = 0 then msg
  else
    (List.range divisor.length).foldl
      (fun ms j => ms.set (i + j) ((ms.getD (i + j) 0) ^^^ gmul (divisor.getD j 0) coef))
      msg

/-- Embeds `Galois.polyDiv(dividend, divisor)`: runs the elimination loop for
`i ∈ [0, dividend.length - divisor.length]` and returns the final
`divisor.length - 1` entries (`msg.slice(dividend.length - (divisor.length - 1))`). -/
def polyDiv (dividend divisor : List Nat) : List Nat :=
  let final := (List.range (dividend.length + 1 - divisor.length)).foldl
    (polyDivStep divisor) dividend
  final.drop (dividend.length - (divisor.length - 1))

/-- Embeds `ReedSolomon.generatorPoly(degree)`: product of `(x - a^i)` for `i < degree`. -/
def generatorPoly (degree : Nat) : List Nat :=
  (List.range degree).foldl (fun poly i => polyMul poly [1, expTable.getD i 0]) [1]

/-- Embeds `ReedSolomon.computeEC(dataBytes, ecCount)`: append `ecCount` zeros and
divide by the degree-`ecCount` generator. -/
def computeEC (dataBytes : List Nat) (ecCount : Nat) : List Nat :=
  polyDiv (dataBytes ++ List.replicate ecCount 0) (generatorPoly ecCount)

end QRGen

namespace QRGen

/-! ### Capacity tables (`BYTE_CAPACITIES`, `TOTAL_CODEWORDS`) -/

/-- Error-correction level (`ECC_LEVELS` keys). -/
inductive ECL where
  | L : ECL
  | M : ECL
  | Q : ECL
  | H : ECL
deriving DecidableEq, Repr, Fintype

/-- Embeds `BYTE_CAPACITIES`: byte-mode capacities indexed by `version - 1`,
copied verbatim from the source (note: the `L` row has only 39 entries). -/
def byteCapacities : ECL → List Nat
  | ECL.L =>
    [17, 32, 53, 78, 106, 134, 154, 192, 230, 271, 321, 367, 425, 458, 520, 586, 644, 718,
     792, 858, 929, 1003, 1091, 1171, 1273, 1367, 1465, 1528, 1628, 1732, 1840, 1952, 2068,
     2188, 2303, 2431, 2563, 2699, 2809]
  | ECL.M =>
    [14, 26, 42, 62, 84, 106, 122, 152, 180, 213, 251, 287, 331, 362, 412, 450, 504, 560,
     624, 666, 711, 779, 857, 911, 997, 1059, 1125, 1190, 1264, 1370, 1452, 1538, 1628,
     1722, 1809, 1911, 1989, 2099, 2213, 2331]
  | ECL.Q =>
    [11, 20, 32, 46, 60, 74, 86, 108, 130, 151, 177, 203, 241, 258, 292, 322, 364, 394,
     442, 482, 509, 565, 611, 661, 715, 751, 805, 868, 908, 982, 1030, 1112, 1168, 1228,
     1283, 1351, 1423, 1499, 1579, 1663]
  | ECL.H =>
    [7, 14, 24, 34, 44, 58, 64, 84, 98, 119, 137, 155, 177, 194, 220, 250, 280, 310, 338,
     382, 403, 439, 461, 511, 535, 593, 625, 658, 698, 742, 790, 842, 898, 958, 983, 1051,
     1093, 1139, 1219, 1273]

/-- Embeds `TOTAL_CODEWORDS` from `QRCode._ecCodewordsPerBlock`. -/
def totalCodewordsTable : List Nat :=
  [26, 44, 70, 100, 134, 172, 196, 242, 292, 346, 404, 466, 532, 581, 655, 733, 815, 901,
   991, 1085, 1156, 1258, 1364, 1474, 1588, 1706, 1828, 1921, 2051, 2185, 2323, 2465, 2611,
   2761, 2876, 3034, 3196, 3362, 3532, 3706]

/-- Embeds `QRCode._totalDataBytesForVersion` as a partial lookup:
`BYTE_CAPACITIES[ecLevel][version - 1]` (`none` models JS `undefined`). -/
def dataCodewordsOpt (version : Nat) (ecl : ECL) : Option Nat :=
  (byteCapacities ecl).get? (version - 1)

/-- Embeds `TOTAL_CODEWORDS[version - 1]` as a partial lookup. -/
def totalCodewordsOpt (version : Nat) : Option Nat :=
  totalCodewordsTable.get? (version - 1)

/-- Embeds `QRCode._ecCodewordsPerBlock(version, ecLevel)`:
`TOTAL_CODEWORDS[version-1] - BYTE_CAPACITIES[ecLevel][version-1]`
(total defined for all versions 1..40; subtraction never truncates in range). -/
def ecCodewordsPerBlock (version : Nat) (ecl : ECL) : Nat :=
  totalCodewordsTable.getD (version - 1) 0 - (byteCapacities ecl).getD (version - 1) 0

end QRGen

namespace QRGen

/-! ### Function patterns (`QRMatrix` builders of src/qrcodegen.js) -/

/-- Embeds `QRMatrix.inBounds(r, c)` over signed coordinates. -/
def inB (size : Nat) (r c : Int) : Bool :=
  0 ≤ r ∧ r < size ∧ 0 ≤ c ∧ c < size

/-- Guarded write used where the source checks `inBounds` first (separator
cells may be off-grid). -/
def setMG (size : Nat) (mat : Mat) (r c : Int) (v : Module) : Mat :=
  if inB size r c then setM mat r.toNat c.toNat v else mat

/-- The 7×7 finder pattern bitmap. -/
def finderPattern : List (List Nat) :=
  [[1, 1, 1, 1, 1, 1, 1],
   [1, 0, 0, 0, 0, 0, 1],
   [1, 0, 1, 1, 1, 0, 1],
   [1, 0, 1, 1, 1, 0, 1],
   [1, 0, 1, 1, 1, 0, 1],
   [1, 0, 0, 0, 0, 0, 1],
   [1, 1, 1, 1, 1, 1, 1]]

/-- Embeds `QRMatrix.placeFinder(r, c)`: stamp the 7×7 pattern as reserved modules,
then the one-module light separator ring (bounds-checked). -/
def placeFinder (size : Nat) (mat : Mat) (r c : Nat) : Mat :=
  let withPattern := (List.range 7).foldl
    (fun m dr => (List.range 7).foldl
      (fun m2 dc =>
        setM m2 (r + dr) (c + dc)
          (Module.reserved (((finderPattern.getD dr []).getD dc 0) ≠ 0)))
      m)
    mat
  (List.range 9).foldl
    (fun m k =>
      let i : Int := (k : Int) - 1
      let m1 := setMG size m ((r : Int) - 1) ((c : Int) + i) (Module.reserved false)
      let m2 := setMG size m1 ((r : Int) + 7) ((c : Int) + i) (Module.reserved false)
      let m3 := setMG size m2 ((r : Int) + i) ((c : Int) - 1) (Module.reserved false)
      setMG size m3 ((r : Int) + i) ((c : Int) + 7) (Module.reserved false))
    withPattern

/-- Embeds `QRMatrix.placeFindersAndSeparators()`. -/
def placeFinders (size : Nat) (mat : Mat) : Mat :=
  placeFinder size (placeFinder size (placeFinder size mat 0 0) 0 (size - 7)) (size - 7) 0

/-- Embeds `QRMatrix.placeTimingPatterns()`: alternating reserved modules on row 6 and
column 6 for `i ∈ [8, size - 8)`, only where still unset. -/
def placeTiming (size : Nat) (mat : Mat) : Mat :=
  (List.range (size - 16)).foldl
    (fun m k =>
      let i := k + 8
      let v := i % 2 = 0
      let m1 := if getM m 6 i = Module.unset then setM m 6 i (Module.reserved v) else m
      if getM m1 i 6 = Module.unset then setM m1 i 6 (Module.reserved v) else m1)
    mat

/-- Embeds `Math.ceil(a / b)` for non-negative integers. -/
def ceilDiv (a b : Nat) : Nat := (a + b - 1) / b

/-- Embeds `QRMatrix.alignmentPatternCenters(version)`. -/
def alignmentCenters (version : Nat) : List Nat :=
  if version = 1 then []
  else
    let posCount := version / 7 + 2
    let size := version * 4 + 17
    let step := if posCount = 2 then size - 13 else ceilDiv (size - 13) (posCount - 1)
    [6] ++ ((List.range (posCount - 2)).map fun i => 6 + (i + 1) * step) ++ [size - 7]

/-- The 5×5 alignment pattern bitmap. -/
def alignPattern : List (List Nat) :=
  [[1, 1, 1, 1, 1],
   [1, 0, 0, 0, 1],
   [1, 0, 1, 0, 1],
   [1, 0, 0, 0, 1],
   [1, 1, 1, 1, 1]]

/-- Embeds `QRMatrix.placeAlignmentAt(r, c)`: stamp 5×5 pattern cells that are
in bounds and still unset. -/
def placeAlignmentAt (size : Nat) (mat : Mat) (r c : Nat) : Mat :=
  (List.range 5).foldl
    (fun m dr => (List.range 5).foldl
      (fun m2 dc =>
        if r + dr < size ∧ c + dc < size ∧ getM m2 (r + dr) (c + dc) = Module.unset then
          setM m2 (r + dr) (c + dc)
            (Module.reserved (((alignPattern.getD dr []).getD dc 0) ≠ 0))
        else m2)
      m)
    mat

/-- Embeds `QRMatrix.placeAlignmentPatterns()`: every (row, col) centre pair except
those clashing with finders. -/
def placeAlignments (version size : Nat) (mat : Mat) : Mat :=
  let centers := alignmentCenters version
  centers.foldl
    (fun m r => centers.foldl
      (fun m2 c =>
        if (r = 6 ∧ (c = 6 ∨ c = size - 7)) ∨ (c = 6 ∧ r = size - 7) then m2
        else placeAlignmentAt size m2 (r - 2) (c - 2))
      m)
    mat

/-- First reservation loop of `reserveFormatAndVersionAreas`:
`(8, i)` and `(i, 8)` for `i ∈ [0, 8]`, `i ≠ 6`. -/
def formatPs1 : List (Nat × Nat) :=
  ((List.range 9).filter (fun i => i ≠ 6)).flatMap fun i => [(8, i), (i, 8)]

/-- Second reservation loop: `(8, size-1-i)` and `(size-1-i, 8)` for `i < 8`. -/
def formatPs2 (size : Nat) : List (Nat × Nat) :=
  (List.range 8).flatMap fun i => [(8, size - 1 - i), (size - 1 - i, 8)]

/-- Embeds `QRMatrix.reserveFormatAndVersionAreas()`: both loops write light reserved
modules. -/
def reserveFormat (size : Nat) (mat : Mat) : Mat :=
  writeAll (writeAll mat formatPs1 (Module.reserved false)) (formatPs2 size)
    (Module.reserved false)

/-- Embeds `QRMatrix.placeFunctionPatterns()` on a fresh matrix of the version
(`placeVersionInfo` is a no-op in the source and is omitted). -/
def fnMatrix (version : Nat) : Mat :=
  let size := version * 4 + 17
  reserveFormat size
    (placeAlignments version size
      (placeTiming size
        (placeFinders size (emptyMatrix size))))

end QRGen

namespace QRGen

/-! ### Data placement, masking, penalty (src/qrcodegen.js) -/

/-- Zigzag traversal of `QRMatrix.placeDataBits`: visits the two columns
`(col', col'-1)` top-down or bottom-up, where `col' = col - 1` when
`col = 6` (timing column skipped), then continues two columns to the left
with the direction flipped. -/
def travAux (size : Nat) (col : Nat) (dirUp : Bool) : List (Nat × Nat) :=
  if col = 0 then []
  else
    let col' := if col = 6 then 5 else col
    ((List.range size).flatMap fun i =>
      let r := if dirUp then size - 1 - i else i
      [(r, col'), (r, col' - 1)]) ++ travAux size (col' - 2) (!dirUp)
termination_by col
decreasing_by
  split <;> omega

/-- Cell visit order of `placeDataBits` (starts at column `size - 1`, upward). -/
def traversal (size : Nat) : List (Nat × Nat) := travAux size (size - 1) true

/-- One visited cell of `placeDataBits`: write the next bit into an unset cell
(the bit index advances only while bits remain, and exhausted bits read as 0). -/
def placeStep (bits : List Bool) (st : Mat × Nat) (rc : Nat × Nat) : Mat × Nat :=
  if getM st.1 rc.1 rc.2 = Module.unset then
    if st.2 < bits.length then
      (setM st.1 rc.1 rc.2 (Module.val (bits.getD st.2 false)), st.2 + 1)
    else
      (setM st.1 rc.1 rc.2 (Module.val false), st.2)
  else st

/-- Embeds `QRMatrix.placeDataBits(dataBits)`. -/
def placeDataBits (mat : Mat) (bits : List Bool) : Mat :=
  ((traversal mat.length).foldl (placeStep bits) (mat, 0)).1

/-- The 8 mask formulas (the `masks` array in `QRCode.generate`); indices
outside 0..7 are never applied by the source (`masks[m]` is only read for
`m < 8`), so they default to `false` here. -/
def maskFun (m r c : Nat) : Bool :=
  if m = 0 then (r + c) % 2 = 0
  else if m = 1 then r % 2 = 0
  else if m = 2 then c % 3 = 0
  else if m = 3 then (r + c) % 3 = 0
  else if m = 4 then (r / 2 + c / 3) % 2 = 0
  else if m = 5 then (r * c) % 2 + (r * c) % 3 = 0
  else if m = 6 then ((r * c) % 2 + (r * c) % 3) % 2 = 0
  else if m = 7 then ((r + c) % 2 + (r * c) % 3) % 2 = 0
  else false

/-- Embeds `QRMatrix.applyMask(mask)`: every in-range cell is rewritten as a function
of itself alone (unset and reserved cells are skipped, value cells flip
exactly where the mask predicate holds), so the double loop is a
comprehension. -/
def applyMask (f : Nat → Nat → Bool) (mat : Mat) : Mat :=
  (List.range mat.length).map fun r => (List.range mat.length).map fun c =>
    match getM mat r c with
    | Module.unset => Module.unset
    | Module.reserved b => Module.reserved b
    | Module.val b => if f r c then Module.val (!b) else Module.val b

/-- Embeds `isDark` inside `penaltyScore`: reserved cells expose their `dark` field,
value cells their boolean. The source would fault on an unset (`null`) cell;
`penaltyScore` is only ever applied to fully assigned candidate matrices, and
`unset` is mapped to `false` (the coercion `!!null`) for totality. -/
def isDarkM : Module → Bool
  | Module.unset => false
  | Module.val b => b
  | Module.reserved b => b

/-- Row `r` of the matrix as booleans, in column order. -/
def boolRow (mat : Mat) (r : Nat) : List Bool :=
  (List.range mat.length).map fun c => isDarkM (getM mat r c)

/-- Column `c` of the matrix as booleans, in row order. -/
def boolCol (mat : Mat) (c : Nat) : List Bool :=
  (List.range mat.length).map fun r => isDarkM (getM mat r c)

/-- Penalty rule 1 for a single line: each maximal run of length `≥ 5`
contributes `3 + (run - 5)` (the source fold over positions 1..size-1 plus
the final check). -/
def runPenaltyAux (color : Bool) (len : Nat) : List Bool → Nat
  | [] => if len ≥ 5 then 3 + (len - 5) else 0
  | b :: rest =>
    if b = color then runPenaltyAux color (len + 1) rest
    else (if len ≥ 5 then 3 + (len - 5) else 0) + runPenaltyAux b 1 rest

/-- Rule 1 for one line. -/
def runPenalty : List Bool → Nat
  | [] => 0
  | b :: rest => runPenaltyAux b 1 rest

/-- Rule 3 template `'10111010000'` as booleans. -/
def pattern1 : List Bool :=
  [true, false, true, true, true, false, true, false, false, false, false]

/-- Rule 3 template `'00001011101'` as booleans. -/
def pattern2 : List Bool :=
  [false, false, false, false, true, false, true, true, true, false, true]

/-- Embeds `matchesPattern(arr)`: some 11-module window equals either template. -/
def hasPattern : List Bool → Bool
  | [] => false
  | b :: rest =>
    if 11 ≤ (b :: rest).length ∧
        ((b :: rest).take 11 = pattern1 ∨ (b :: rest).take 11 = pattern2) then true
    else hasPattern rest

/-- Embeds `QRMatrix.penaltyScore()`: the four mask-evaluation rules. Rule 4 models
`Math.abs(Math.round((darkCount*100/total - 50)/5))` exactly over `Int` as
`|⌊(200·dark - 95·total) / (10·total)⌋|` (since `Math.round x = ⌊x + 1/2⌋`). -/
def penaltyScore (mat : Mat) : Nat :=
  let size := mat.length
  let rule1 :=
    ((List.range size).map fun r => runPenalty (boolRow mat r)).sum +
    ((List.range size).map fun c => runPenalty (boolCol mat c)).sum
  let rule2 :=
    ((List.range (size - 1)).map fun r =>
      ((List.range (size - 1)).map fun c =>
        if isDarkM (getM mat r c) ∧ isDarkM (getM mat r (c + 1)) ∧
            isDarkM (getM mat (r + 1) c) ∧ isDarkM (getM mat (r + 1) (c + 1)) then 3
        else 0).sum).sum
  let rule3 :=
    ((List.range size).map fun r => if hasPattern (boolRow mat r) then 40 else 0).sum +
    ((List.range size).map fun c => if hasPattern (boolCol mat c) then 40 else 0).sum
  let darkCount :=
    ((List.range size).map fun r =>
      ((List.range size).map fun c => if isDarkM (getM mat r c) then 1 else 0).sum).sum
  let total := size * size
  let k := (Int.fdiv (200 * (darkCount : Int) - 95 * (total : Int)) (10 * (total : Int))).natAbs
  rule1 + rule2 + rule3 + k * 10

/-- One iteration of the mask-selection loop in `QRCode.generate`: clone the
base matrix, apply mask `m`, score it, and keep it when the score beats the
best so far (`none` is the initial `Infinity` state, so the first candidate
always wins; later ties keep the earlier index). -/
def pickStep (base : Mat) (best : Option (Nat × Nat × Mat)) (m : Nat) :
    Option (Nat × Nat × Mat) :=
  let cand := applyMask (maskFun m) base
  let s := penaltyScore cand
  match best with
  | none => some (s, m, cand)
  | some (bs, bi, bm) => if s < bs then some (s, m, cand) else some (bs, bi, bm)

/-- The mask-selection fold of `QRCode.generate` over all 8 mask indices;
returns `(bestMask, bestModules)` (the `none` fallback is unreachable). -/
def pickBest (base : Mat) : Nat × Mat :=
  match (List.range 8).foldl (pickStep base) none with
  | some (_, i, mt) => (i, mt)
  | none => (0, base)

end QRGen

namespace QRGen

/-! ### Bit stream assembly (`BitBuffer` use inside `QRCode.generate`) -/

/-- Embeds `BitBuffer.put(num, length)`: the bits of `num`, most significant first. -/
def natToBits (len num : Nat) : List Bool :=
  (List.range len).map fun i => num.testBit (len - 1 - i)

/-- One byte from up to 8 bits, MSB first; a short chunk is zero-padded on the
right exactly as the partially filled last byte of `BitBuffer.buffer`. -/
def bitsToByte (l : List Bool) : Nat :=
  (l.foldl (fun acc b => 2 * acc + (if b then 1 else 0)) 0) <<< (8 - l.length)

/-- Embeds `BitBuffer.getBytes()`: chunk the bit list into bytes. -/
def bitsToBytes (bits : List Bool) : List Nat :=
  if bits = [] then []
  else bitsToByte (bits.take 8) :: bitsToBytes (bits.drop 8)
termination_by bits.length
decreasing_by
  rename_i h
  have : bits.length ≠ 0 := fun hh => h (List.eq_nil_of_length_eq_zero hh)
  simp [List.length_drop]
  omega

/-- Character-count indicator width chosen by `QRCode.generate`:
`version >= 10 && version <= 26 ? 16 : version >= 27 ? 16 : 8`. -/
def ccBits (version : Nat) : Nat :=
  if 10 ≤ version ∧ version ≤ 26 then 16 else if 27 ≤ version then 16 else 8

/-- The `while (getBytes().length < totalDataBytes)` pad loop, appending
`0xEC` and `0x11` alternately. Each iteration appends exactly one byte, so
the loop runs exactly `cap - bytes.length` times; it is phrased with that
explicit countdown. -/
def padBytesGo : Nat → List Nat → Nat → List Nat
  | 0, bytes, _ => bytes
  | fuel + 1, bytes, i =>
    padBytesGo fuel (bytes ++ [if i % 2 = 0 then 0xEC else 0x11]) (i + 1)

/-- Pad `bytes` with alternating `0xEC`/`0x11` until length `cap`. -/
def padBytes (bytes : List Nat) (cap : Nat) : List Nat :=
  padBytesGo (cap - bytes.length) bytes 0

/-- The data bit stream of `QRCode.generate` (mode indicator, count indicator,
payload, terminator of up to 4 zero bits, zero fill to a byte boundary, pad
bytes), for a given capacity `cap` in bytes. `none` models the
`"Not enough capacity after initial encoding"` throw. -/
def buildStreamBytes (dataBytes : List Nat) (version cap : Nat) : Option (List Nat) :=
  let header := natToBits 4 4 ++ natToBits (ccBits version) dataBytes.length ++
    dataBytes.flatMap (natToBits 8)
  if 8 * cap < header.length then none
  else
    let afterTerm := header ++ List.replicate (min 4 (8 * cap - header.length)) false
    let aligned := afterTerm ++ List.replicate ((8 - afterTerm.length % 8) % 8) false
    some (padBytes (bitsToBytes aligned) cap)

/-- Bytes to bits, MSB first (`for (let bit = 7; bit >= 0; bit--)`). -/
def bytesToBits (bytes : List Nat) : List Bool :=
  bytes.flatMap (natToBits 8)

/-! ### Version choice and the top-level `QRCode.generate` -/

/-- Embeds `BYTE_CAPACITIES[ecLevel][v-1] >= dataBytes.length` with JS semantics:
a missing table entry (`undefined`) compares false. -/
def fits (ecl : ECL) (v len : Nat) : Bool :=
  match (byteCapacities ecl).get? (v - 1) with
  | some cap => len ≤ cap
  | none => false

/-- The search loop of `QRCode._chooseVersion`: `fuel` counts the versions
still to try (the loop visits `v, v+1, ..., v+fuel-1` and then throws), so
the full search is `fuel = 40` starting at `v = 1`. Structural in `fuel`. -/
def chooseGo (len : Nat) (ecl : ECL) : Nat → Nat → Except String Nat
  | 0, _ => Except.error "Data too long for any QR version"
  | fuel + 1, v => if fits ecl v len then Except.ok v else chooseGo len ecl fuel (v + 1)

/-- Embeds `QRCode._chooseVersion(dataBytes, ecLevel)`: versions 1..40 in order. -/
def chooseVersion (len : Nat) (ecl : ECL) : Except String Nat :=
  chooseGo len ecl 40 1

/-- Result of `QRCode.generate`: chosen version, reported mask index, final
matrix (`this.version`, `this.mask`, `this.matrix`). -/
structure GenResult where
  version : Nat
  mask : Nat
  matrix : Mat
deriving DecidableEq, Repr

/-- The body of `QRCode.generate()` once the version is fixed: the assert on
the version, capacity lookup, length check, bit-stream assembly, single-block
EC computation and concatenation, function-pattern build, data placement, and
the mask loop. On the pinned-mask path the loop body runs once with `m = 0`
and then breaks, so the stored matrix is the mask-0 candidate while
`this.mask` is set to the pinned index. At `(version 40, L)` the capacity
lookup is `undefined` and the JS reaches a `RangeError` inside `computeEC`;
that failure is surfaced here as an error at the lookup. -/
def generateWithVersion (dataBytes : List Nat) (version : Nat) (ecl : ECL)
    (maskOpt : Option Nat) : Except String GenResult :=
  if ¬(1 ≤ version ∧ version ≤ 40) then Except.error "Invalid version chosen"
  else
    match (byteCapacities ecl).get? (version - 1) with
    | none => Except.error "invalid array length"
    | some cap =>
      if cap < dataBytes.length then
        Except.error ("Data too long for version " ++ toString version)
      else
        match buildStreamBytes dataBytes version cap with
        | none => Except.error "Not enough capacity after initial encoding"
        | some cw =>
          let ecCount := totalCodewordsTable.getD (version - 1) 0 - cap
          let finalBits := bytesToBits (cw ++ computeEC cw ecCount)
          let base := placeDataBits (fnMatrix version) finalBits
          match maskOpt with
          | none =>
            let best := pickBest base
            Except.ok ⟨version, best.1, best.2⟩
          | some m => Except.ok ⟨version, m, applyMask (maskFun 0) base⟩

/-- Embeds `QRCode.generate()` from the UTF-8 byte array onward (`_utf8Bytes` is the
preceding step and is not modelled; claims quantify over the byte payload).
`vOpt`/`maskOpt` `none` mean the `'auto'` option values. On the pinned-mask
path the loop body runs once with `m = 0` and then breaks, so the stored
matrix is the mask-0 candidate while `this.mask` is set to the pinned index.
At `(version 40, L)` the capacity lookup is `undefined` and the JS reaches a
`RangeError` inside `computeEC`; that failure is surfaced here as an error at
the lookup. -/
def generate (dataBytes : List Nat) (vOpt : Option Nat) (ecl : ECL)
    (maskOpt : Option Nat) : Except String GenResult :=
  match vOpt with
  | none =>
    match chooseVersion dataBytes.length ecl with
    | Except.error e => Except.error e
    | Except.ok v => generateWithVersion dataBytes v ecl maskOpt
  | some v => generateWithVersion dataBytes v ecl maskOpt

end QRGen

namespace QRGen

/-! ### Format information (src/unnamed/part_000 and the specified encoder) -/

/-- The ECL bit patterns of `drawFormat` in part_000
(`{ L: 1, M: 0, Q: 3, H: 2 }`). -/
def eclBits : ECL → Nat
  | ECL.L => 1
  | ECL.M => 0
  | ECL.Q => 3
  | ECL.H => 2

/-- Embeds `Math.floor(Math.log2 v)` for the ranges arising here: the largest
`k ≤ 32` with `2 ^ k ≤ v` (0 for `v = 0`; the callers only reach this with
`v ≥ 1024`). Structural, so it evaluates by kernel reduction. -/
def floorLog2 (v : Nat) : Nat :=
  (List.range 32).foldl (fun acc i => if 2 ^ (i + 1) ≤ v then i + 1 else acc) 0

/-- The `BCH(value, 0x537)` loop body of part_000. Its guard is
`(value >> 10) >= (1 << 10)`, i.e. `value >= 2^20`; format data is at most
`31 << 10 < 2^15`, so the loop never executes there and the function returns
`value << 10` unreduced. Fuel bounds the iteration count (each pass clears
the top bit, so `value` iterations always suffice). -/
def p000BCHGo : Nat → Nat → Nat
  | 0, v => v
  | fuel + 1, v =>
    if 1024 ≤ v >>> 10 then p000BCHGo fuel (v ^^^ (0x537 <<< (floorLog2 v - 10)))
    else v

/-- Embeds `BCH(data, 0x537)` of part_000 (after its internal `value <<= 10`). -/
def p000BCH (data : Nat) : Nat := p000BCHGo (data <<< 10) (data <<< 10)

/-- The 15-bit word `drawFormat` actually writes:
`((data << 10) | BCH(data, 0x537)) ^ 0x5412`. -/
def p000FormatBits (ecl : ECL) (mask : Nat) : Nat :=
  let data := (eclBits ecl <<< 3) ||| mask
  ((data <<< 10) ||| p000BCH data) ^^^ 0x5412

/-- Modelled from the spec: the genuine 10-bit BCH(15,5) remainder of
`data << 10` modulo the generator polynomial `0x537` over GF(2). No source
file contains a working remainder computation (part_000's loop guard is never
true), so this follows the specification text of FormatInfoEncoder. Fuel 32
covers every 15-bit input since each step clears the top bit. -/
def bchRemGo : Nat → Nat → Nat
  | 0, v => v
  | fuel + 1, v =>
    if v < 1024 then v
    else bchRemGo fuel (v ^^^ (0x537 <<< (floorLog2 v - 10)))

/-- Modelled from the spec: the 15-bit format codeword
`((data << 10) | bchRemainder) ^ 0x5412` for 2 ECL bits and 3 mask bits. -/
def formatCodewordSpec (ecl : ECL) (mask : Nat) : Nat :=
  let data := (eclBits ecl <<< 3) ||| mask
  ((data <<< 10) ||| bchRemGo 32 (data <<< 10)) ^^^ 0x5412

end QRGen

namespace QRGen

/-! ### Preservation lemmas for placement and masking -/

theorem placeStep_keeps {bits : List Bool} {st : Mat × Nat} {rc : Nat × Nat}
    {r c : Nat} {v : Module} (hv : v ≠ Module.unset) (h : getM st.1 r c = v) :
    getM (placeStep bits st rc).1 r c = v := by
  unfold placeStep
  by_cases he : getM st.1 rc.1 rc.2 = Module.unset
  · rw [if_pos he]
    have hne : ¬(r = rc.1 ∧ c = rc.2) := by
      intro ⟨h1, h2⟩
      rw [h1, h2] at h
      exact hv (h.symm.trans he)
    by_cases hl : st.2 < bits.length
    · rw [if_pos hl]
      show getM (setM st.1 rc.1 rc.2 (Module.val (bits.getD st.2 false))) r c = v
      rw [getM_setM_ne hne]
      exact h
    · rw [if_neg hl]
      show getM (setM st.1 rc.1 rc.2 (Module.val false)) r c = v
      rw [getM_setM_ne hne]
      exact h
  · rw [if_neg he]
    exact h

theorem foldl_placeStep_keeps {bits : List Bool} {r c : Nat} {v : Module}
    (hv : v ≠ Module.unset) :
    ∀ (cells : List (Nat × Nat)) (st : Mat × Nat), getM st.1 r c = v →
      getM (cells.foldl (placeStep bits) st).1 r c = v := by
  intro cells
  induction cells with
  | nil => intro st h; exact h
  | cons x xs ih =>
    intro st h
    exact ih _ (placeStep_keeps hv h)

/-- Embeds `placeDataBits` writes only to unset cells: every other cell survives. -/
theorem placeDataBits_keeps {mat : Mat} {bits : List Bool} {r c : Nat} {v : Module}
    (hv : v ≠ Module.unset) (h : getM mat r c = v) :
    getM (placeDataBits mat bits) r c = v :=
  foldl_placeStep_keeps hv _ (mat, 0) h

theorem isSize_placeDataBits {n : Nat} {mat : Mat} (h : IsSize n mat)
    (bits : List Bool) : IsSize n (placeDataBits mat bits) := by
  unfold placeDataBits
  have main : ∀ (cells : List (Nat × Nat)) (st : Mat × Nat), IsSize n st.1 →
      IsSize n ((cells.foldl (placeStep bits) st).1) := by
    intro cells
    induction cells with
    | nil => intro st hst; exact hst
    | cons x xs ih =>
      intro st hst
      apply ih
      unfold placeStep
      split
      · split
        · exact isSize_setM hst _ _ _
        · exact isSize_setM hst _ _ _
      · exact hst
  exact main _ (mat, 0) h

/-- Reading the mask comprehension at an in-range cell. -/
theorem getM_applyMask {f : Nat → Nat → Bool} {mat : Mat} {r c : Nat}
    (hr : r < mat.length) (hc : c < mat.length) :
    getM (applyMask f mat) r c =
      match getM mat r c with
      | Module.unset => Module.unset
      | Module.reserved b => Module.reserved b
      | Module.val b => if f r c then Module.val (!b) else Module.val b := by
  unfold applyMask
  conv_lhs => rw [getM]
  simp only [List.getD_eq_getElem?_getD, List.getElem?_map, List.getElem?_range hr,
    Option.map_some', Option.getD_some, List.getElem?_range hc]

/-- A readable cell that is not `unset` must be in range. -/
theorem getM_ne_unset_bounds {mat : Mat} {r c : Nat} (h : getM mat r c ≠ Module.unset) :
    r < mat.length ∧ c < (mat.getD r []).length := by
  constructor
  · by_contra hr
    apply h
    have h0 : mat[r]? = none := List.getElem?_eq_none (by omega)
    simp only [getM, List.getD_eq_getElem?_getD, h0]
    rfl
  · by_contra hc
    apply h
    have hlen : (mat.getD r []).length ≤ c := by omega
    rw [List.getD_eq_getElem?_getD] at hlen
    simp only [getM, List.getD_eq_getElem?_getD]
    rw [List.getElem?_eq_none hlen]
    rfl

/-- Masking never touches a reserved cell. -/
theorem applyMask_reserved {n : Nat} {f : Nat → Nat → Bool} {mat : Mat} {r c : Nat}
    {b : Bool} (hsz : IsSize n mat) (h : getM mat r c = Module.reserved b) :
    getM (applyMask f mat) r c = Module.reserved b := by
  have hb := @getM_ne_unset_bounds mat r c (by rw [h]; simp)
  have hr : r < mat.length := hb.1
  have hc : c < mat.length := by
    have hrn : r < n := by rw [hsz.1] at hr; exact hr
    have := hsz.2 r hrn
    rw [this] at hb
    rw [hsz.1]
    exact hb.2
  rw [getM_applyMask hr hc, h]

end QRGen

namespace QRGen

/-! ### Shape and contents of the function-pattern matrix -/

theorem isSize_setMG {n size : Nat} {mat : Mat} (h : IsSize n mat) (r c : Int)
    (v : Module) : IsSize n (setMG size mat r c v) := by
  unfold setMG
  split
  · exact isSize_setM h _ _ _
  · exact h

theorem isSize_placeFinder {n size : Nat} {mat : Mat} (h : IsSize n mat) (r c : Nat) :
    IsSize n (placeFinder size mat r c) := by
  unfold placeFinder
  apply isSize_foldl
  · intro m k hm
    exact isSize_setMG (isSize_setMG (isSize_setMG (isSize_setMG hm _ _ _) _ _ _) _ _ _) _ _ _
  · apply isSize_foldl
    · intro m dr hm
      apply isSize_foldl
      · intro m2 dc hm2
        exact isSize_setM hm2 _ _ _
      · exact hm
    · exact h

theorem isSize_placeFinders {n size : Nat} {mat : Mat} (h : IsSize n mat) :
    IsSize n (placeFinders size mat) :=
  isSize_placeFinder (isSize_placeFinder (isSize_placeFinder h _ _) _ _) _ _

theorem isSize_placeTiming {n size : Nat} {mat : Mat} (h : IsSize n mat) :
    IsSize n (placeTiming size mat) := by
  unfold placeTiming
  apply isSize_foldl
  · intro m k hm
    dsimp only
    split
    all_goals split
    all_goals first
      | exact isSize_setM (isSize_setM hm _ _ _) _ _ _
      | exact isSize_setM hm _ _ _
      | exact hm
  · exact h

theorem isSize_placeAlignmentAt {n size : Nat} {mat : Mat} (h : IsSize n mat)
    (r c : Nat) : IsSize n (placeAlignmentAt size mat r c) := by
  unfold placeAlignmentAt
  apply isSize_foldl
  · intro m dr hm
    apply isSize_foldl
    · intro m2 dc hm2
      split
      · exact isSize_setM hm2 _ _ _
      · exact hm2
    · exact hm
  · exact h

theorem isSize_placeAlignments {n version size : Nat} {mat : Mat} (h : IsSize n mat) :
    IsSize n (placeAlignments version size mat) := by
  unfold placeAlignments
  apply isSize_foldl
  · intro m r hm
    apply isSize_foldl
    · intro m2 c hm2
      split
      · exact hm2
      · exact isSize_placeAlignmentAt hm2 _ _
    · exact hm
  · exact h

theorem isSize_reserveFormat {n size : Nat} {mat : Mat} (h : IsSize n mat) :
    IsSize n (reserveFormat size mat) :=
  isSize_writeAll (isSize_writeAll h _ _) _ _

theorem isSize_fnMatrix (version : Nat) :
    IsSize (version * 4 + 17) (fnMatrix version) := by
  unfold fnMatrix
  exact isSize_reserveFormat
    (isSize_placeAlignments
      (isSize_placeTiming
        (isSize_placeFinders (isSize_emptyMatrix _))))

/-- Reading the result of `reserveFormatAndVersionAreas`: positions written in
its second loop take that loop's value, positions written only in the first
loop take the first loop's value, and everything else is untouched. -/
theorem getM_reserveFormat {n size : Nat} {mat : Mat} (h : IsSize n mat)
    (r c : Nat) (hr : r < n) (hc : c < n) :
    getM (reserveFormat size mat) r c =
      if (r, c) ∈ formatPs2 size then Module.reserved false
      else if (r, c) ∈ formatPs1 then Module.reserved false
      else getM mat r c := by
  unfold reserveFormat
  rw [getM_writeAll _ _ _ (isSize_writeAll h _ _) r c hr hc,
    getM_writeAll _ _ _ h r c hr hc]

/-- Membership in the second reservation loop forces a coordinate `≥ size - 8`. -/
theorem mem_formatPs2 {size r c : Nat} (h : (r, c) ∈ formatPs2 size) :
    (r = 8 ∧ size - 8 ≤ c ∧ c ≤ size - 1) ∨ (c = 8 ∧ size - 8 ≤ r ∧ r ≤ size - 1) := by
  unfold formatPs2 at h
  simp only [List.mem_flatMap, List.mem_range] at h
  obtain ⟨i, hi, hmem⟩ := h
  simp only [List.mem_cons, List.mem_singleton] at hmem
  rcases hmem with h1 | h1 | h1
  · left
    have e1 : r = 8 := congrArg Prod.fst h1
    have e2 : c = size - 1 - i := congrArg Prod.snd h1
    omega
  · right
    have e1 : r = size - 1 - i := congrArg Prod.fst h1
    have e2 : c = 8 := congrArg Prod.snd h1
    omega
  · cases h1

/-- Embeds `(size - 8, 8)` is written light-reserved by the second loop when the grid
is at least 9 wide. -/
theorem darkPos_mem_formatPs2 {size : Nat} (h : 9 ≤ size) :
    (size - 8, 8) ∈ formatPs2 size := by
  unfold formatPs2
  simp only [List.mem_flatMap, List.mem_range]
  refine ⟨7, by omega, ?_⟩
  simp only [List.mem_cons, List.mem_singleton]
  right
  left
  have he : size - 1 - 7 = size - 8 := by omega
  rw [he]

end QRGen

namespace QRGen

/-! ### Structure of the mask-selection loop and of `generate` -/

/-- Embeds `pickStep` from the empty (`Infinity`) state always adopts the candidate. -/
theorem pickStep_none (base : Mat) (m : Nat) :
    pickStep base none m =
      some (penaltyScore (applyMask (maskFun m) base), m, applyMask (maskFun m) base) := rfl

/-- Invariant of the selection fold: a non-empty run starting from the initial
state (or any scored-candidate state) ends in a scored candidate whose mask
index is below 8. -/
theorem pickFold_shape (base : Mat) :
    ∀ ms : List Nat, (∀ m ∈ ms, m < 8) → ∀ st : Option (Nat × Nat × Mat),
      ((st = none ∧ ms ≠ []) ∨
        ∃ s k, st = some (s, k, applyMask (maskFun k) base) ∧ k < 8) →
      ∃ s k, ms.foldl (pickStep base) st = some (s, k, applyMask (maskFun k) base) ∧
        k < 8 := by
  intro ms
  induction ms with
  | nil =>
    intro _ st hst
    rcases hst with ⟨_, hne⟩ | ⟨s, k, he, hk⟩
    · exact absurd rfl hne
    · exact ⟨s, k, he, hk⟩
  | cons m rest ih =>
    intro hmem st hst
    rw [List.foldl_cons]
    apply ih (fun x hx => hmem x (List.mem_cons_of_mem _ hx))
    right
    rcases hst with ⟨h0, _⟩ | ⟨s, k, he, hk⟩
    · rw [h0, pickStep_none]
      exact ⟨_, m, rfl, hmem m (List.mem_cons_self _ _)⟩
    · rw [he]
      unfold pickStep
      dsimp only
      split
      · exact ⟨_, m, rfl, hmem m (List.mem_cons_self _ _)⟩
      · exact ⟨s, k, rfl, hk⟩

/-- The winning candidate is one of the eight masked copies. -/
theorem pickBest_shape (base : Mat) :
    ∃ k, k < 8 ∧ pickBest base = (k, applyMask (maskFun k) base) := by
  obtain ⟨s, k, he, hk⟩ := pickFold_shape base (List.range 8)
    (by intro m hm; simpa using hm) none (Or.inl ⟨rfl, by simp⟩)
  refine ⟨k, hk, ?_⟩
  unfold pickBest
  rw [he]

end QRGen

namespace QRGen

/-- Dissection of a successful run of the version-fixed body: the version is
validated, the capacity and bit stream are the looked-up/assembled ones, and
the final matrix is one of the eight masked copies of the placed base matrix
— the mask-0 copy whenever the caller pinned a mask. -/
theorem generateWithVersion_ok {bytes : List Nat} {version : Nat} {ecl : ECL}
    {maskOpt : Option Nat} {res : GenResult}
    (h : generateWithVersion bytes version ecl maskOpt = Except.ok res) :
    res.version = version ∧ 1 ≤ version ∧ version ≤ 40 ∧
    ∃ cap cw k,
      (byteCapacities ecl).get? (version - 1) = some cap ∧
      buildStreamBytes bytes version cap = some cw ∧
      k < 8 ∧
      res.matrix = applyMask (maskFun k)
        (placeDataBits (fnMatrix version)
          (bytesToBits (cw ++ computeEC cw
            (totalCodewordsTable.getD (version - 1) 0 - cap)))) ∧
      (maskOpt = none → res.mask = k) ∧
      (∀ m, maskOpt = some m → res.mask = m ∧ k = 0) := by
  unfold generateWithVersion at h
  by_cases hrange : ¬(1 ≤ version ∧ version ≤ 40)
  · rw [if_pos hrange] at h
    cases h
  · rw [if_neg hrange] at h
    push_neg at hrange
    rcases hcap : (byteCapacities ecl).get? (version - 1) with _ | cap
    · rw [hcap] at h
      cases h
    · rw [hcap] at h
      dsimp only at h
      by_cases hlen : cap < bytes.length
      · rw [if_pos hlen] at h
        cases h
      · rw [if_neg hlen] at h
        rcases hcw : buildStreamBytes bytes version cap with _ | cw
        · rw [hcw] at h
          cases h
        · rw [hcw] at h
          dsimp only at h
          rcases maskOpt with _ | m
          · obtain ⟨k, hk, hpick⟩ := pickBest_shape
              (placeDataBits (fnMatrix version)
                (bytesToBits (cw ++ computeEC cw
                  (totalCodewordsTable.getD (version - 1) 0 - cap))))
            rw [hpick] at h
            cases h
            refine ⟨rfl, hrange.1, hrange.2, cap, cw, k, rfl, hcw, hk, rfl,
              fun _ => rfl, ?_⟩
            intro m hm
            exact nomatch hm
          · cases h
            refine ⟨rfl, hrange.1, hrange.2, cap, cw, 0, rfl, hcw, by omega, rfl,
              ?_, ?_⟩
            · intro hnone
              exact nomatch hnone
            · intro m2 hm2
              cases hm2
              exact ⟨rfl, rfl⟩

/-- A successful `generate` runs the version-fixed body on some version that
resolves from the options: the explicitly requested one, or the one
`_chooseVersion` returned. -/
theorem generate_ok {bytes : List Nat} {vOpt : Option Nat} {ecl : ECL}
    {maskOpt : Option Nat} {res : GenResult}
    (h : generate bytes vOpt ecl maskOpt = Except.ok res) :
    ∃ version, generateWithVersion bytes version ecl maskOpt = Except.ok res ∧
      (∀ v, vOpt = some v → version = v) ∧
      (vOpt = none → chooseVersion bytes.length ecl = Except.ok version) := by
  unfold generate at h
  rcases vOpt with _ | v
  · rcases hcv : chooseVersion bytes.length ecl with e | v
    · rw [hcv] at h
      cases h
    · rw [hcv] at h
      refine ⟨v, h, ?_, ?_⟩
      · intro v1 hv
        exact nomatch hv
      · intro _
        rfl
  · refine ⟨v, h, ?_, ?_⟩
    · intro v1 hv
      exact Option.some.inj hv
    · intro hv
      exact nomatch hv

end QRGen

namespace QRGen

/-! ### The reserved format strip of the built function-pattern matrix -/

/-- Every position of the first reservation loop has both coordinates `≤ 8`. -/
theorem formatPs1_bounds : ∀ p ∈ formatPs1, p.1 ≤ 8 ∧ p.2 ≤ 8 := by decide

/-- In the built function-pattern matrix, every cell of the near-finder format
strip is a light reserved module (the reservation loops are the last writers
and never assign a dark or data value there). -/
theorem fnMatrix_format_light {version : Nat} (hv : 1 ≤ version) {r c : Nat}
    (hmem : (r, c) ∈ formatPs1) :
    getM (fnMatrix version) r c = Module.reserved false := by
  have hb := formatPs1_bounds (r, c) hmem
  have hsz : IsSize (version * 4 + 17)
      (placeAlignments version (version * 4 + 17)
        (placeTiming (version * 4 + 17)
          (placeFinders (version * 4 + 17) (emptyMatrix (version * 4 + 17))))) :=
    isSize_placeAlignments (isSize_placeTiming (isSize_placeFinders (isSize_emptyMatrix _)))
  have hr : r < version * 4 + 17 := by omega
  have hc : c < version * 4 + 17 := by omega
  have hnotps2 : (r, c) ∉ formatPs2 (version * 4 + 17) := by
    intro hmem2
    rcases mem_formatPs2 hmem2 with ⟨_, h2, _⟩ | ⟨_, h2, _⟩ <;> omega
  unfold fnMatrix
  rw [getM_reserveFormat hsz r c hr hc, if_neg hnotps2, if_pos hmem]

/-- The cell `(4·version + 9, 8)` — where the spec requires the fixed dark
module — is a light reserved module in the built function-pattern matrix. -/
theorem fnMatrix_darkPos_light {version : Nat} (hv : 1 ≤ version) :
    getM (fnMatrix version) (4 * version + 9) 8 = Module.reserved false := by
  have hsz : IsSize (version * 4 + 17)
      (placeAlignments version (version * 4 + 17)
        (placeTiming (version * 4 + 17)
          (placeFinders (version * 4 + 17) (emptyMatrix (version * 4 + 17))))) :=
    isSize_placeAlignments (isSize_placeTiming (isSize_placeFinders (isSize_emptyMatrix _)))
  have hpos : 4 * version + 9 = (version * 4 + 17) - 8 := by omega
  have hmem := @darkPos_mem_formatPs2 (version * 4 + 17) (by omega)
  unfold fnMatrix
  rw [hpos, getM_reserveFormat hsz _ 8 (by omega) (by omega), if_pos hmem]

end QRGen

namespace QRGen

/-! ### Claim C1 -/

/-- C1: every module of the function-pattern matrix that is in a Reserved
state when data placement begins is left unchanged by data placement and by
mask application, for every mask index `0..7`: `placeDataBits` writes only to
unset modules and `applyMask` flips only non-reserved, non-unset modules. -/
theorem C1_reserved_untouched (version : Nat) (bits : List Bool) (m : Fin 8)
    (r c : Nat) (b : Bool)
    (h : getM (fnMatrix version) r c = Module.reserved b) :
    getM (placeDataBits (fnMatrix version) bits) r c = Module.reserved b ∧
    getM (applyMask (maskFun m.val) (placeDataBits (fnMatrix version) bits)) r c =
      Module.reserved b := by
  have h1 : getM (placeDataBits (fnMatrix version) bits) r c = Module.reserved b :=
    placeDataBits_keeps (by simp) h
  exact ⟨h1,
    applyMask_reserved (isSize_placeDataBits (isSize_fnMatrix version) bits) h1⟩

set_option maxRecDepth 1000000 in
/-- Witness for C1 at version 1, the dark finder corner `(0,0)`, empty bit
stream, mask 0. -/
theorem C1_reserved_untouched_witness :
    getM (fnMatrix 1) 0 0 = Module.reserved true ∧
    getM (placeDataBits (fnMatrix 1) []) 0 0 = Module.reserved true ∧
    getM (applyMask (maskFun 0) (placeDataBits (fnMatrix 1) [])) 0 0 =
      Module.reserved true := by
  have h : getM (fnMatrix 1) 0 0 = Module.reserved true := by decide
  have hc := C1_reserved_untouched 1 [] ⟨0, by omega⟩ 0 0 true h
  exact ⟨h, hc.1, hc.2⟩

end QRGen

namespace QRGen

/-! ### Claims C2, C3, C5, C8 (defects of the encode pipeline) -/

/-- C2: in every successful encode the reserved format-information strip of
the output matrix consists entirely of light reserved modules — `generate`
never writes the format codeword (the `TODO` at the mask loop) — while the
15-bit codeword demanded by the claim, `((data << 10) | bch) ^ 0x5412`, is
non-zero for every ECL/mask pair, so the claimed codeword is present in no
output; moreover the repository BCH helper returns `data << 10` itself
(here `1024` for `data = 1`), not a 10-bit remainder. -/
theorem C2_format_codeword_never_written (bytes : List Nat) (vOpt : Option Nat)
    (ecl : ECL) (maskOpt : Option Nat) (res : GenResult)
    (h : generate bytes vOpt ecl maskOpt = Except.ok res) :
    (∀ p ∈ formatPs1, getM res.matrix p.1 p.2 = Module.reserved false) ∧
    (∀ e : ECL, ∀ m : Fin 8, formatCodewordSpec e m.val ≠ 0) ∧
    p000BCH 1 = 1024 := by
  obtain ⟨version, hgw, _, _⟩ := generate_ok h
  obtain ⟨hv, h1, _, cap, cw, k, _, _, _, hmat, _, _⟩ := generateWithVersion_ok hgw
  refine ⟨?_, by decide, rfl⟩
  intro p hp
  have hfn : getM (fnMatrix version) p.1 p.2 = Module.reserved false :=
    fnMatrix_format_light h1 (by rcases p with ⟨a, b⟩; exact hp)
  have hplaced := @placeDataBits_keeps (fnMatrix version)
    (bytesToBits (cw ++ computeEC cw
      (totalCodewordsTable.getD (version - 1) 0 - cap)))
    p.1 p.2 (Module.reserved false) (by simp) hfn
  have hmask := applyMask_reserved (f := maskFun k)
    (isSize_placeDataBits (isSize_fnMatrix version) _) hplaced
  rw [hmat]
  exact hmask

/-- C3: whenever the caller pins a mask index `m`, the returned symbol
reports mask `m` but its matrix is the mask-0 candidate: the loop breaks
after its first iteration, which applied `masks[0]`, so the applied mask is
pattern 0 for every pinned `m`, not `m` itself. -/
theorem C3_pinned_mask_applies_mask0 (bytes : List Nat) (vOpt : Option Nat)
    (ecl : ECL) (m : Nat) (res : GenResult)
    (h : generate bytes vOpt ecl (some m) = Except.ok res) :
    res.mask = m ∧ (∀ v, vOpt = some v → res.version = v) ∧
    ∃ cap cw,
      (byteCapacities ecl).get? (res.version - 1) = some cap ∧
      buildStreamBytes bytes res.version cap = some cw ∧
      res.matrix = applyMask (maskFun 0)
        (placeDataBits (fnMatrix res.version)
          (bytesToBits (cw ++ computeEC cw
            (totalCodewordsTable.getD (res.version - 1) 0 - cap)))) := by
  obtain ⟨version, hgw, hsome, _⟩ := generate_ok h
  obtain ⟨hv, _, _, cap, cw, k, hcap, hcw, _, hmat, _, hpin⟩ := generateWithVersion_ok hgw
  obtain ⟨hmask, hk0⟩ := hpin m rfl
  rw [hk0] at hmat
  refine ⟨hmask, ?_, cap, cw, ?_, ?_, ?_⟩
  · intro v hv'
    rw [hv, hsome v hv']
  · rw [hv]
    exact hcap
  · rw [hv]
    exact hcw
  · rw [hv]
    exact hmat

/-- C5: the codeword sequence placed into the matrix of every successful
encode is `cw ++ computeEC cw ecAll` — the whole data stream treated as a
single Reed–Solomon block with all EC bytes appended at the end — with no
group-1/group-2 splitting and no column-wise interleaving for any
`(version, ecLevel)`. -/
theorem C5_single_block_no_interleaving (bytes : List Nat) (vOpt : Option Nat)
    (ecl : ECL) (maskOpt : Option Nat) (res : GenResult)
    (h : generate bytes vOpt ecl maskOpt = Except.ok res) :
    (∀ v, vOpt = some v → res.version = v) ∧
    ∃ cap cw k,
      (byteCapacities ecl).get? (res.version - 1) = some cap ∧
      buildStreamBytes bytes res.version cap = some cw ∧
      k < 8 ∧
      res.matrix = applyMask (maskFun k)
        (placeDataBits (fnMatrix res.version)
          (bytesToBits (cw ++ computeEC cw
            (totalCodewordsTable.getD (res.version - 1) 0 - cap)))) := by
  obtain ⟨version, hgw, hsome, _⟩ := generate_ok h
  obtain ⟨hv, _, _, cap, cw, k, hcap, hcw, hk, hmat, _, _⟩ := generateWithVersion_ok hgw
  refine ⟨?_, cap, cw, k, ?_, ?_, hk, ?_⟩
  · intro v hv2
    rw [hv, hsome v hv2]
  · rw [hv]
    exact hcap
  · rw [hv]
    exact hcw
  · rw [hv]
    exact hmat

/-- C8: the cell `(4·version + 9, 8)`, which the spec requires to be the
fixed dark module, is a light reserved module in the matrix of every
successful encode: no step of `generate` ever sets it dark. -/
theorem C8_dark_module_is_light (bytes : List Nat) (vOpt : Option Nat)
    (ecl : ECL) (maskOpt : Option Nat) (res : GenResult)
    (h : generate bytes vOpt ecl maskOpt = Except.ok res) :
    getM res.matrix (4 * res.version + 9) 8 = Module.reserved false := by
  obtain ⟨version, hgw, _, _⟩ := generate_ok h
  obtain ⟨hv, h1, _, cap, cw, k, _, _, _, hmat, _, _⟩ := generateWithVersion_ok hgw
  have hfn := @fnMatrix_darkPos_light version h1
  have hplaced := @placeDataBits_keeps (fnMatrix version)
    (bytesToBits (cw ++ computeEC cw
      (totalCodewordsTable.getD (version - 1) 0 - cap)))
    (4 * version + 9) 8 (Module.reserved false) (by simp) hfn
  have hmask := applyMask_reserved (f := maskFun k)
    (isSize_placeDataBits (isSize_fnMatrix version) _) hplaced
  rw [hv, hmat]
  exact hmask

end QRGen

namespace QRGen

/-! ### Witnesses for C2, C3, C5, C8 -/

set_option maxRecDepth 4000000 in
/-- Witness for C2: encoding the byte `65` at version 1, level M, pinned mask
0, the format cell `(8,1)` of the output is a light reserved module, although
the specified codeword for level M would have bit 1 set there. -/
theorem C2_format_codeword_never_written_witness :
    ((generate [65] (some 1) ECL.M (some 0)).toOption.map
      (fun res => getM res.matrix 8 1)) = some (Module.reserved false) := by
  rcases hE : generate [65] (some 1) ECL.M (some 0) with e | res
  · exfalso
    have hOk : (generate [65] (some 1) ECL.M (some 0)).toOption.isSome = true := by decide
    rw [hE] at hOk
    simp [Except.toOption] at hOk
  · have hth := C2_format_codeword_never_written [65] (some 1) ECL.M (some 0) res hE
    have h81 := hth.1 (8, 1) (by decide)
    simp only [Except.toOption, Option.map_some']
    rw [h81]

set_option maxRecDepth 4000000 in
/-- Witness for C3: pinning mask 3 for the byte `65` at version 1, level M
returns reported mask 3 while the matrix is the mask-0 candidate. -/
theorem C3_pinned_mask_applies_mask0_witness :
    ((generate [65] (some 1) ECL.M (some 3)).toOption.map GenResult.mask = some 3) ∧
    ((generate [65] (some 1) ECL.M (some 3)).toOption.map GenResult.matrix =
      ((buildStreamBytes [65] 1 14).map fun cw =>
        applyMask (maskFun 0) (placeDataBits (fnMatrix 1)
          (bytesToBits (cw ++ computeEC cw 12))))) := by
  rcases hE : generate [65] (some 1) ECL.M (some 3) with e | res
  · exfalso
    have hOk : (generate [65] (some 1) ECL.M (some 3)).toOption.isSome = true := by decide
    rw [hE] at hOk
    simp [Except.toOption] at hOk
  · obtain ⟨hm, hver, cap, cw, hcap, hcw, hmat⟩ :=
      C3_pinned_mask_applies_mask0 [65] (some 1) ECL.M 3 res hE
    have hv1 : res.version = 1 := hver 1 rfl
    rw [hv1] at hcap hcw hmat
    have hcap14 : (byteCapacities ECL.M).get? (1 - 1) = some 14 := by decide
    obtain rfl : cap = 14 := (Option.some.inj (hcap14.symm.trans hcap)).symm
    have hec : totalCodewordsTable.getD (1 - 1) 0 - 14 = 12 := by decide
    rw [hec] at hmat
    constructor
    · simp only [Except.toOption, Option.map_some']
      rw [hm]
    · simp only [Except.toOption, Option.map_some']
      rw [hcw, Option.map_some', hmat]

set_option maxRecDepth 4000000 in
/-- Witness for C5: encoding two bytes at version 3, level Q (a version and
level whose standard block table has two blocks), pinned mask 0. -/
theorem C5_single_block_no_interleaving_witness :
    ((generate [72, 105] (some 3) ECL.Q (some 0)).toOption.map GenResult.matrix =
      ((buildStreamBytes [72, 105] 3 32).map fun cw =>
        applyMask (maskFun 0) (placeDataBits (fnMatrix 3)
          (bytesToBits (cw ++ computeEC cw 38))))) := by
  rcases hE : generate [72, 105] (some 3) ECL.Q (some 0) with e | res
  · exfalso
    have hOk : (generate [72, 105] (some 3) ECL.Q (some 0)).toOption.isSome = true := by
      decide
    rw [hE] at hOk
    simp [Except.toOption] at hOk
  · have hC5 := C5_single_block_no_interleaving [72, 105] (some 3) ECL.Q (some 0) res hE
    have hv3 : res.version = 3 := hC5.1 3 rfl
    obtain ⟨version, hgw, hsome, _⟩ := generate_ok hE
    obtain rfl : version = 3 := hsome 3 rfl
    obtain ⟨_, _, _, cap2, cw2, k2, hcap2, hcw2, _, hmat2, _, hpin2⟩ :=
      generateWithVersion_ok hgw
    obtain ⟨_, hk20⟩ := hpin2 0 rfl
    rw [hk20] at hmat2
    have hcap32 : (byteCapacities ECL.Q).get? (3 - 1) = some 32 := by decide
    obtain rfl : cap2 = 32 := (Option.some.inj (hcap32.symm.trans hcap2)).symm
    have hec : totalCodewordsTable.getD (3 - 1) 0 - 32 = 38 := by decide
    rw [hec] at hmat2
    simp only [Except.toOption, Option.map_some']
    rw [hcw2, Option.map_some', hmat2]

set_option maxRecDepth 4000000 in
/-- Witness for C8: encoding the byte `66` at version 1, level M, pinned mask
0, the cell `(13, 8) = (4·1 + 9, 8)` of the output is light reserved. -/
theorem C8_dark_module_is_light_witness :
    ((generate [66] (some 1) ECL.M (some 0)).toOption.map
      (fun res => getM res.matrix (4 * res.version + 9) 8)) =
      some (Module.reserved false) := by
  rcases hE : generate [66] (some 1) ECL.M (some 0) with e | res
  · exfalso
    have hOk : (generate [66] (some 1) ECL.M (some 0)).toOption.isSome = true := by decide
    rw [hE] at hOk
    simp [Except.toOption] at hOk
  · have hth := C8_dark_module_is_light [66] (some 1) ECL.M (some 0) res hE
    simp only [Except.toOption, Option.map_some']
    rw [hth]

end QRGen

namespace QRGen

/-! ### Claim C4: exact byte length of the assembled stream -/

theorem padBytesGo_length : ∀ (fuel : Nat) (bytes : List Nat) (i : Nat),
    (padBytesGo fuel bytes i).length = bytes.length + fuel := by
  intro fuel
  induction fuel with
  | zero => intro bytes i; rfl
  | succ f ih =>
    intro bytes i
    rw [padBytesGo, ih]
    simp
    omega

theorem padBytes_length {bytes : List Nat} {cap : Nat} (h : bytes.length ≤ cap) :
    (padBytes bytes cap).length = cap := by
  unfold padBytes
  rw [padBytesGo_length]
  omega

theorem bitsToBytes_length (l : List Bool) :
    (bitsToBytes l).length = (l.length + 7) / 8 := by
  have main : ∀ (n : Nat) (l : List Bool), l.length ≤ n →
      (bitsToBytes l).length = (l.length + 7) / 8 := by
    intro n
    induction n with
    | zero =>
      intro l hl
      have : l = [] := List.eq_nil_of_length_eq_zero (by omega)
      subst this
      rw [bitsToBytes]
      simp
    | succ n ih =>
      intro l hl
      rw [bitsToBytes]
      by_cases he : l = []
      · rw [if_pos he, he]
        simp
      · rw [if_neg he]
        have hlen : 1 ≤ l.length := by
          rcases l with _ | ⟨x, xs⟩
          · exact absurd rfl he
          · simp
        have hdrop : (l.drop 8).length = l.length - 8 := by simp
        rw [List.length_cons, ih (l.drop 8) (by omega), hdrop]
        omega
  exact main l.length l le_rfl

/-- C4: for every accepted input at a chosen `(version, ecLevel)` — that is,
whenever the assembly succeeds — the assembled data bit stream (mode
indicator, count indicator, payload, terminator, zero fill to a byte
boundary, alternating `0xEC`/`0x11` pad bytes) has byte length exactly the
data-codeword count `BYTE_CAPACITIES[ecLevel][version-1]` of that version
and level (the quantity the code also uses as
`totalCodewords - ecCodewords`), never more and never less. -/
theorem C4_stream_length_exact (d : List Nat) (version cap : Nat) (ecl : ECL)
    (cw : List Nat)
    (hcap : (byteCapacities ecl).get? (version - 1) = some cap)
    (h : buildStreamBytes d version cap = some cw) :
    cw.length = cap := by
  unfold buildStreamBytes at h
  by_cases hover : 8 * cap <
      (natToBits 4 4 ++ natToBits (ccBits version) d.length ++
        d.flatMap (natToBits 8)).length
  · rw [if_pos hover] at h
    cases h
  · rw [if_neg hover] at h
    dsimp only at h
    cases h
    push_neg at hover
    set header := natToBits 4 4 ++ natToBits (ccBits version) d.length ++
      d.flatMap (natToBits 8) with hheader
    have hterm : (header ++
        List.replicate (min 4 (8 * cap - header.length)) false).length ≤ 8 * cap := by
      simp only [List.length_append, List.length_replicate]
      omega
    set afterTerm := header ++
      List.replicate (min 4 (8 * cap - header.length)) false with hafter
    have haligned : (afterTerm ++
        List.replicate ((8 - afterTerm.length % 8) % 8) false).length ≤ 8 * cap := by
      simp only [List.length_append, List.length_replicate]
      omega
    apply padBytes_length
    rw [bitsToBytes_length]
    simp only [List.length_append, List.length_replicate] at haligned ⊢
    omega

/-- Witness for C4 at the byte `65`, version 1, level M, capacity 14. -/
theorem C4_stream_length_exact_witness :
    ((buildStreamBytes [65] 1 14).map List.length) = some 14 := by
  rcases hS : buildStreamBytes [65] 1 14 with _ | cw
  · exfalso
    have hOk : (buildStreamBytes [65] 1 14).isSome = true := by decide
    rw [hS] at hOk
    cases hOk
  · rw [Option.map_some']
    rw [C4_stream_length_exact [65] 1 14 ECL.M cw (by decide) hS]

end QRGen

namespace QRGen

/-! ### Claim C6: capacity-table self-consistency -/

/-- C6 counterexample: at `(version 40, L)` the capacity table has no entry —
the `L` row of `BYTE_CAPACITIES` holds only 39 values — so
`dataCodewords(40, L)` is undefined and the claim fails there. -/
theorem C6_counterexample_v40_L :
    dataCodewordsOpt 40 ECL.L = none ∧ (byteCapacities ECL.L).length = 39 ∧
    (byteCapacities ECL.M).length = 40 ∧ (byteCapacities ECL.Q).length = 40 ∧
    (byteCapacities ECL.H).length = 40 ∧ totalCodewordsTable.length = 40 := by
  decide

/-- C6 (amended): for every version 1..40 and level except `(40, L)` — where
the `L` capacity row is one entry short — the data-codeword and
total-codeword lookups are defined, the data count never exceeds the total,
and `dataCodewords + ecCodewordsTotal = totalCodewords` holds. -/
theorem C6_tables_consistent (v : Nat) (ecl : ECL) (h1 : 1 ≤ v) (h2 : v ≤ 40)
    (h3 : ¬(v = 40 ∧ ecl = ECL.L)) :
    (dataCodewordsOpt v ecl).isSome = true ∧
    (totalCodewordsOpt v).isSome = true ∧
    (dataCodewordsOpt v ecl).getD 0 ≤ (totalCodewordsOpt v).getD 0 ∧
    (dataCodewordsOpt v ecl).getD 0 + ecCodewordsPerBlock v ecl =
      (totalCodewordsOpt v).getD 0 := by
  have key : ∀ w ∈ Finset.Icc 1 40, ∀ e : ECL, ¬(w = 40 ∧ e = ECL.L) →
      (dataCodewordsOpt w e).isSome = true ∧
      (totalCodewordsOpt w).isSome = true ∧
      (dataCodewordsOpt w e).getD 0 ≤ (totalCodewordsOpt w).getD 0 ∧
      (dataCodewordsOpt w e).getD 0 + ecCodewordsPerBlock w e =
        (totalCodewordsOpt w).getD 0 := by decide
  exact key v (Finset.mem_Icc.mpr ⟨h1, h2⟩) ecl h3

/-- Witness for C6 at `(version 5, Q)`. -/
theorem C6_tables_consistent_witness :
    (dataCodewordsOpt 5 ECL.Q).isSome = true ∧
    (totalCodewordsOpt 5).isSome = true ∧
    (dataCodewordsOpt 5 ECL.Q).getD 0 ≤ (totalCodewordsOpt 5).getD 0 ∧
    (dataCodewordsOpt 5 ECL.Q).getD 0 + ecCodewordsPerBlock 5 ECL.Q =
      (totalCodewordsOpt 5).getD 0 :=
  C6_tables_consistent 5 ECL.Q (by decide) (by decide) (by decide)

end QRGen

namespace QRGen

/-! ### Claim C7: automatic version selection -/

theorem chooseGo_ok {len : Nat} {ecl : ECL} :
    ∀ fuel v u, chooseGo len ecl fuel v = Except.ok u →
      v ≤ u ∧ u < v + fuel ∧ fits ecl u len = true ∧
      ∀ w, v ≤ w → w < u → fits ecl w len = false := by
  intro fuel
  induction fuel with
  | zero =>
    intro v u h
    cases h
  | succ f ih =>
    intro v u h
    rw [chooseGo] at h
    by_cases hfits : fits ecl v len
    · rw [if_pos hfits] at h
      cases h
      exact ⟨le_rfl, by omega, hfits, fun w hw1 hw2 => by omega⟩
    · rw [if_neg hfits] at h
      obtain ⟨hvu, hu, hufits, hmin⟩ := ih (v + 1) u h
      refine ⟨by omega, by omega, hufits, ?_⟩
      intro w hw1 hw2
      by_cases hwv : w = v
      · rw [hwv]
        simpa using hfits
      · exact hmin w (by omega) hw2

theorem chooseGo_error {len : Nat} {ecl : ECL} :
    ∀ fuel v, (∀ w, v ≤ w → w < v + fuel → fits ecl w len = false) →
      chooseGo len ecl fuel v = Except.error "Data too long for any QR version" := by
  intro fuel
  induction fuel with
  | zero =>
    intro v _
    rfl
  | succ f ih =>
    intro v hall
    rw [chooseGo]
    rw [if_neg (by rw [hall v le_rfl (by omega)]; simp)]
    exact ih (v + 1) (fun w hw1 hw2 => hall w (by omega) (by omega))

/-- C7 (amended): automatic selection returns the smallest version in the
fixed range 1..40 whose byte capacity is at least the payload length, and
when no version fits it throws the fixed message
`"Data too long for any QR version"`, which reports neither the maximum
capacity available nor the required size. -/
theorem C7_chooseVersion_minimal_fixed_error (len : Nat) (ecl : ECL) :
    (∀ u, chooseVersion len ecl = Except.ok u →
      1 ≤ u ∧ u ≤ 40 ∧ fits ecl u len = true ∧
      ∀ w, 1 ≤ w → w < u → fits ecl w len = false) ∧
    ((∀ w ∈ Finset.Icc 1 40, fits ecl w len = false) →
      chooseVersion len ecl = Except.error "Data too long for any QR version") := by
  constructor
  · intro u h
    obtain ⟨h1, h2, h3, h4⟩ := chooseGo_ok 40 1 u h
    exact ⟨h1, by omega, h3, h4⟩
  · intro hall
    exact chooseGo_error 40 1
      (fun w hw1 hw2 => hall w (Finset.mem_Icc.mpr ⟨hw1, by omega⟩))

/-- Witness for C7: for a 100-byte payload at level H the chosen version is
10, which fits, while version 9 does not. -/
theorem C7_chooseVersion_minimal_fixed_error_witness :
    fits ECL.H 10 100 = true ∧ fits ECL.H 9 100 = false := by
  rcases hE : chooseVersion 100 ECL.H with e | u
  · exfalso
    have hT : (chooseVersion 100 ECL.H).toOption = some 10 := by decide
    rw [hE] at hT
    cases hT
  · have hT : (chooseVersion 100 ECL.H).toOption = some 10 := by decide
    rw [hE] at hT
    have hu : u = 10 := by
      simpa [Except.toOption] using hT
    subst hu
    have h := (C7_chooseVersion_minimal_fixed_error 100 ECL.H).1 10 hE
    exact ⟨h.2.2.1, h.2.2.2 9 (by decide) (by decide)⟩

/-- C7 counterexample: the error thrown when nothing fits is one fixed
string, identical for required sizes 5000 and 9999 at level H (maximum
capacity 1273), so it reports neither the maximum capacity available nor
the minimum required size. -/
theorem C7_counterexample_error_reports_nothing :
    chooseVersion 5000 ECL.H = Except.error "Data too long for any QR version" ∧
    chooseVersion 9999 ECL.H = chooseVersion 5000 ECL.H ∧
    (byteCapacities ECL.H).getD 39 0 = 1273 := by
  have hall5 : ∀ w ∈ Finset.Icc 1 40, fits ECL.H w 5000 = false := by decide
  have hall9 : ∀ w ∈ Finset.Icc 1 40, fits ECL.H w 9999 = false := by decide
  have h5 : chooseVersion 5000 ECL.H =
      Except.error "Data too long for any QR version" :=
    chooseGo_error 40 1
      (fun w h1 h2 => hall5 w (Finset.mem_Icc.mpr ⟨h1, by omega⟩))
  have h9 : chooseVersion 9999 ECL.H =
      Except.error "Data too long for any QR version" :=
    chooseGo_error 40 1
      (fun w h1 h2 => hall9 w (Finset.mem_Icc.mpr ⟨h1, by omega⟩))
  exact ⟨h5, h9.trans h5.symm, by decide⟩

end QRGen

namespace QRGen

/-! ### Claim C10: the 2×2 block penalty -/

/-- Modelled from the spec: the block-penalty rule as specified — every 2×2
block of uniform color, Light or Dark, contributes 3, counting overlaps. -/
def blockPenaltyBothColors (mat : Mat) : Nat :=
  let size := mat.length
  ((List.range (size - 1)).map fun r =>
    ((List.range (size - 1)).map fun c =>
      if isDarkM (getM mat r c) = isDarkM (getM mat r (c + 1)) ∧
          isDarkM (getM mat r c) = isDarkM (getM mat (r + 1) c) ∧
          isDarkM (getM mat r c) = isDarkM (getM mat (r + 1) (c + 1)) then 3
      else 0).sum).sum

set_option maxRecDepth 1000000 in
/-- C10: `penaltyScore` counts only all-Dark 2×2 blocks. On the all-Light
21×21 grid it scores 898 (runs 798 + balance 100, block rule 0), while on the
all-Dark grid it scores 2098 (the extra 1200 = 400 blocks × 3); the
spec-modelled rule scores both grids the same 1200 for their 400 uniform
blocks, so the claim that all-Light blocks count like all-Dark ones fails. -/
theorem C10_block_penalty_counts_dark_only :
    penaltyScore (List.replicate 21 (List.replicate 21 (Module.val false))) = 898 ∧
    penaltyScore (List.replicate 21 (List.replicate 21 (Module.val true))) = 2098 ∧
    blockPenaltyBothColors
      (List.replicate 21 (List.replicate 21 (Module.val false))) = 1200 ∧
    blockPenaltyBothColors
      (List.replicate 21 (List.replicate 21 (Module.val true))) = 1200 := by
  refine ⟨by decide, by decide, by decide, by decide⟩

end QRGen

namespace QRGen

/-! ### Claim C9: Reed–Solomon round trip -/

/-- Pointwise XOR of two equal-length byte lists. -/
def zipXor (xs ys : List Nat) : List Nat := List.zipWith (· ^^^ ·) xs ys

theorem length_zipXor {xs ys : List Nat} (h : ys.length = xs.length) :
    (zipXor xs ys).length = xs.length := by
  simp [zipXor, h]

theorem getD_zipXor {xs ys : List Nat} (h : ys.length = xs.length) (i : Nat) :
    (zipXor xs ys).getD i 0 = xs.getD i 0 ^^^ ys.getD i 0 := by
  simp only [zipXor, List.getD_eq_getElem?_getD, List.getElem?_zipWith]
  rcases hxi : xs[i]? with _ | a
  · have hni : xs.length ≤ i := by
      by_contra hc
      rw [List.getElem?_eq_getElem (by omega)] at hxi
      cases hxi
    have hyi : ys[i]? = none := List.getElem?_eq_none (by omega)
    rw [hyi]
    rfl
  · rcases hyi : ys[i]? with _ | b
    · exfalso
      have h1 : i < xs.length := by
        by_contra hc
        rw [List.getElem?_eq_none (by omega)] at hxi
        cases hxi
      rw [List.getElem?_eq_getElem (by omega)] at hyi
      cases hyi
    · rfl

theorem set_zipXor : ∀ (xs ys : List Nat), ys.length = xs.length → ∀ (i a : Nat),
    zipXor (xs.set i a) ys = (zipXor xs ys).set i (a ^^^ ys.getD i 0) := by
  intro xs
  induction xs with
  | nil =>
    intro ys h i a
    have : ys = [] := List.eq_nil_of_length_eq_zero h
    subst this
    rfl
  | cons x rest ih =>
    intro ys h i a
    rcases ys with _ | ⟨y, yrest⟩
    · cases h
    · cases i with
      | zero =>
        simp only [List.set_cons_zero, zipXor, List.zipWith_cons_cons, List.getD_cons_zero]
      | succ j =>
        simp only [List.set_cons_succ, zipXor, List.zipWith_cons_cons,
          List.getD_cons_succ]
        have := ih yrest (by simpa using h) j a
        rw [zipXor] at this
        rw [this]
        simp only [zipXor]

theorem length_polyDivStep (divisor msg : List Nat) (i : Nat) :
    (polyDivStep divisor msg i).length = msg.length := by
  unfold polyDivStep
  dsimp only
  split
  · rfl
  · have main : ∀ (js : List Nat) (ms : List Nat), (js.foldl
        (fun ms j => ms.set (i + j) ((ms.getD (i + j) 0) ^^^
          gmul (divisor.getD j 0) (msg.getD i 0))) ms).length = ms.length := by
      intro js
      induction js with
      | nil => intro ms; rfl
      | cons j rest ih =>
        intro ms
        rw [List.foldl_cons, ih]
        simp
    exact main _ _

theorem length_foldl_polyDivStep (divisor : List Nat) :
    ∀ (steps : List Nat) (msg : List Nat),
      (steps.foldl (polyDivStep divisor) msg).length = msg.length := by
  intro steps
  induction steps with
  | nil => intro msg; rfl
  | cons s rest ih =>
    intro msg
    rw [List.foldl_cons, ih, length_polyDivStep]

/-- The elimination step commutes with XOR-ing an offset vector that is zero
at the read position: the read coefficient is unchanged, and all the updates
are XORs of quantities that do not depend on the offset. -/
theorem polyDivStep_zipXor (divisor : List Nat) (msgA t : List Nat) (i : Nat)
    (hlen : t.length = msgA.length) (ht : t.getD i 0 = 0) :
    polyDivStep divisor (zipXor msgA t) i = zipXor (polyDivStep divisor msgA i) t := by
  have hcoef : (zipXor msgA t).getD i 0 = msgA.getD i 0 := by
    rw [getD_zipXor hlen, ht]
    simp
  unfold polyDivStep
  rw [hcoef]
  by_cases h0 : msgA.getD i 0 = 0
  · rw [if_pos h0, if_pos h0]
  · rw [if_neg h0, if_neg h0]
    have main : ∀ (js : List Nat) (ms : List Nat), ms.length = msgA.length →
        (js.foldl (fun ms j => ms.set (i + j) ((ms.getD (i + j) 0) ^^^
            gmul (divisor.getD j 0) (msgA.getD i 0))) (zipXor ms t)) =
          zipXor (js.foldl (fun ms j => ms.set (i + j) ((ms.getD (i + j) 0) ^^^
            gmul (divisor.getD j 0) (msgA.getD i 0))) ms) t := by
      intro js
      induction js with
      | nil => intro ms _; rfl
      | cons j rest ih =>
        intro ms hms
        rw [List.foldl_cons, List.foldl_cons]
        have hlt : t.length = ms.length := by omega
        have hstep : (zipXor ms t).set (i + j)
            (((zipXor ms t).getD (i + j) 0) ^^^ gmul (divisor.getD j 0) (msgA.getD i 0)) =
            zipXor (ms.set (i + j)
              ((ms.getD (i + j) 0) ^^^ gmul (divisor.getD j 0) (msgA.getD i 0))) t := by
          rw [set_zipXor ms t hlt, getD_zipXor hlt]
          congr 1
          rw [Nat.xor_assoc, Nat.xor_assoc]
          congr 1
          rw [Nat.xor_comm]
        rw [hstep]
        exact ih _ (by rw [List.length_set]; omega)
    exact main _ msgA rfl

theorem foldl_polyDivStep_zipXor (divisor : List Nat) :
    ∀ (steps : List Nat) (msgA t : List Nat), t.length = msgA.length →
      (∀ i ∈ steps, t.getD i 0 = 0) →
      steps.foldl (polyDivStep divisor) (zipXor msgA t) =
        zipXor (steps.foldl (polyDivStep divisor) msgA) t := by
  intro steps
  induction steps with
  | nil => intro msgA t _ _; rfl
  | cons s rest ih =>
    intro msgA t hlen hz
    rw [List.foldl_cons, List.foldl_cons,
      polyDivStep_zipXor divisor msgA t s hlen (hz s (List.mem_cons_self _ _)),
      ih _ t (by rw [length_polyDivStep]; omega)
        (fun i hi => hz i (List.mem_cons_of_mem _ hi))]

theorem zipXor_self (xs : List Nat) : zipXor xs xs = List.replicate xs.length 0 := by
  induction xs with
  | nil => rfl
  | cons x rest ih =>
    simp only [zipXor, List.zipWith_cons_cons, List.length_cons, List.replicate_succ]
    rw [Nat.xor_self]
    exact congrArg _ ih

theorem zipXor_zero_left (xs : List Nat) :
    zipXor (List.replicate xs.length 0) xs = xs := by
  induction xs with
  | nil => rfl
  | cons x rest ih =>
    simp only [List.length_cons, List.replicate_succ, zipXor, List.zipWith_cons_cons]
    rw [Nat.zero_xor]
    exact congrArg _ ih

theorem zipXor_zero_right (xs : List Nat) (n : Nat) :
    zipXor xs (List.replicate n 0) = xs.take n := by
  induction xs generalizing n with
  | nil => simp [zipXor]
  | cons x rest ih =>
    cases n with
    | zero => simp [zipXor]
    | succ m =>
      simp only [List.replicate_succ, zipXor, List.zipWith_cons_cons, List.take_succ_cons]
      rw [Nat.xor_zero]
      exact congrArg _ (ih m)

theorem generatorPoly_length (degree : Nat) :
    (generatorPoly degree).length = degree + 1 := by
  have main : ∀ (is : List Nat) (p : List Nat), 1 ≤ p.length →
      ((is.foldl (fun poly i => polyMul poly [1, expTable.getD i 0]) p).length) =
        p.length + is.length := by
    intro is
    induction is with
    | nil => intro p _; simp
    | cons i rest ih =>
      intro p hp
      have hml : (polyMul p [1, expTable.getD i 0]).length = p.length + 1 := by
        simp only [polyMul, List.length_map, List.length_range, List.length_cons,
          List.length_nil]
        omega
      rw [List.foldl_cons, ih _ (by rw [hml]; omega), hml]
      simp
      omega
  unfold generatorPoly
  rw [main (List.range degree) [1] (by simp)]
  simp
  omega

/-- C9: Reed–Solomon round trip. For every data block and every EC codeword
count `n ≥ 1`, appending the `n` EC bytes computed by `computeEC` to the
block and dividing by the same degree-`n` generator polynomial yields the
all-zero remainder. The two division runs read the same coefficients (the
loop only reads positions below `d.length`, where the two dividends agree),
so they perform identical XOR updates, and the remainders differ exactly by
`ec ^^^ ec = 0`. -/
theorem C9_reed_solomon_round_trip (d : List Nat) (n : Nat) (hn : 1 ≤ n) :
    polyDiv (d ++ computeEC d n) (generatorPoly n) = List.replicate n 0 := by
  have hglen : (generatorPoly n).length = n + 1 := generatorPoly_length n
  -- the first run, on the zero-padded dividend
  have hlenA : (d ++ List.replicate n 0).length = d.length + n := by simp
  have hecdef : computeEC d n =
      ((List.range d.length).foldl (polyDivStep (generatorPoly n))
        (d ++ List.replicate n 0)).drop d.length := by
    unfold computeEC polyDiv
    rw [hglen, hlenA]
    have h1 : d.length + n + 1 - (n + 1) = d.length := by omega
    have h2 : d.length + n - (n + 1 - 1) = d.length := by omega
    rw [h1, h2]
  have hfinalA : ((List.range d.length).foldl (polyDivStep (generatorPoly n))
      (d ++ List.replicate n 0)).length = d.length + n := by
    rw [length_foldl_polyDivStep, hlenA]
  have heclen : (computeEC d n).length = n := by
    rw [hecdef, List.length_drop, hfinalA]
    omega
  -- the offset vector
  set ec := computeEC d n with hec
  set t := List.replicate d.length 0 ++ ec with ht
  have htlen : t.length = d.length + n := by
    rw [ht]
    simp [heclen]
  -- second dividend = first dividend XOR t
  have hstart : d ++ ec = zipXor (d ++ List.replicate n 0) t := by
    rw [ht, zipXor, List.zipWith_append _ _ _ _ _ (by simp)]
    have hl : List.zipWith (· ^^^ ·) d (List.replicate d.length 0) = d := by
      have := zipXor_zero_right d d.length
      rw [zipXor] at this
      rw [this, List.take_length]
    have hr : List.zipWith (· ^^^ ·) (List.replicate n 0) ec = ec := by
      have := zipXor_zero_left ec
      rw [zipXor, heclen] at this
      exact this
    rw [hl, hr]
  have hzero : ∀ i ∈ List.range d.length, t.getD i 0 = 0 := by
    intro i hi
    rw [List.mem_range] at hi
    rw [ht, List.getD_eq_getElem?_getD, List.getElem?_append,
      if_pos (by simp; omega), List.getElem?_replicate_of_lt hi]
    rfl
  have hlenB : (d ++ ec).length = d.length + n := by simp [heclen]
  unfold polyDiv
  rw [hglen, hlenB]
  have h1 : d.length + n + 1 - (n + 1) = d.length := by omega
  have h2 : d.length + n - (n + 1 - 1) = d.length := by omega
  rw [h1, h2, hstart,
    foldl_polyDivStep_zipXor (generatorPoly n) (List.range d.length)
      (d ++ List.replicate n 0) t (by rw [htlen, hlenA]) hzero]
  simp only [zipXor]
  rw [List.drop_zipWith]
  have hdropt : t.drop d.length = ec := by
    rw [ht]
    have := List.drop_left (List.replicate d.length 0) ec
    simpa using this
  have hdropA : ((List.range d.length).foldl (polyDivStep (generatorPoly n))
      (d ++ List.replicate n 0)).drop d.length = ec := hecdef.symm
  rw [hdropt, hdropA]
  have := zipXor_self ec
  rw [zipXor] at this
  rw [this, heclen]

/-- Witness for C9 at the data block `[32, 91]` and `n = 2`. -/
theorem C9_reed_solomon_round_trip_witness :
    1 ≤ 2 ∧
    polyDiv ([32, 91] ++ computeEC [32, 91] 2) (generatorPoly 2) =
      List.replicate 2 0 :=
  ⟨by decide, C9_reed_solomon_round_trip [32, 91] 2 (by decide)⟩

end QRGen
